import Mathlib

/-!
Shallow embedding of the `@easy-sync/batching` package: the `BatchManager`
class (`src/index.ts`), the reference schedulers (`src/schedulers.ts`) and the
reference resolvers (`src/resolvers.ts`).

JavaScript values that matter to the control flow are modelled explicitly:
`JsVal.undef` is the JS `undefined`, `JsVal.cancelErr` is a freshly constructed
`BatchCancellationError`, and `JsVal.ext v` is any other value.  A promise's
settlement is a write-once cell (`ReqState.settled`); resolving or rejecting an
already-settled promise is a no-op, exactly as in JS.  The mutable `Map` of
pending entries is modelled as an insertion-ordered association list, and the
per-request objects (shared mutably between the pending map and a flush
snapshot) live in a token-indexed store (`MState.store`), with a token being
the index of the request in the store.
-/

set_option autoImplicit false

namespace EasySync

/-- A JavaScript value as far as the batching code inspects it:
`undef` is `undefined`, `cancelErr` is a default `new BatchCancellationError()`,
`ext v` is any other (opaque) value such as an abort reason, a processor error
or a result. -/
inductive JsVal (V : Type) where
  | undef
  | cancelErr
  | ext (v : V)
  deriving DecidableEq, Repr

/-- The settled state of a promise: fulfilled with a value or rejected with a
reason. -/
inductive Settlement (V : Type) where
  | fulfilled (v : JsVal V)
  | rejected (e : JsVal V)
  deriving DecidableEq, Repr

/-- One request object from an entry's `requests` array: its `cancelled` flag
and the settlement state of its promise (`none` = still pending). -/
structure ReqState (V : Type) where
  cancelled : Bool
  settled : Option (Settlement V)
  deriving DecidableEq, Repr

/-- A freshly created request: not cancelled, promise pending. -/
def ReqState.initial {V : Type} : ReqState V := ⟨false, none⟩

/-- `resolve(v)` on the underlying promise: a no-op if already settled. -/
def ReqState.resolveWith {V : Type} (r : ReqState V) (v : JsVal V) : ReqState V :=
  match r.settled with
  | some _ => r
  | none => { r with settled := some (.fulfilled v) }

/-- `reject(e)` on the underlying promise: a no-op if already settled. -/
def ReqState.rejectWith {V : Type} (r : ReqState V) (e : JsVal V) : ReqState V :=
  match r.settled with
  | some _ => r
  | none => { r with settled := some (.rejected e) }

/-- `req.cancelled = true; req.reject(e)`. -/
def ReqState.cancelWith {V : Type} (r : ReqState V) (e : JsVal V) : ReqState V :=
  { r.rejectWith e with cancelled := true }

/-- A request id: either a caller-supplied id (`string | number | symbol` in
the source, abstracted as `I`) or an auto-generated unique `Symbol()`. -/
inductive RId (I : Type) where
  | ext (i : I)
  | gen (n : Nat)
  deriving DecidableEq, Repr

/-- One value of the manager's `pending` map: a unique id, the payload recorded
when the entry was created (`none` = `undefined`), and the ordered list of
request tokens grouped under this id. -/
structure Entry (I P : Type) where
  id : RId I
  payload : Option P
  requests : List Nat
  deriving DecidableEq, Repr

/-- The mutable state of one `BatchManager` instance. -/
structure MState (I P V : Type) where
  pending : List (Entry I P)
  store : List (ReqState V)
  firstRequestTime : Option Int
  lastRequestTime : Option Int
  timer : Option Int
  symCounter : Nat
  deriving DecidableEq, Repr

/-- The state of a freshly constructed manager. -/
def initState {I P V : Type} : MState I P V := ⟨[], [], none, none, none, 0⟩

/-- Read a request from the token store (total; tokens of reachable states are
always in range). -/
def getReq {V : Type} (store : List (ReqState V)) (t : Nat) : ReqState V :=
  (store.get? t).getD ReqState.initial

/-- One iteration of the source's cancellation / settlement loops:
`if (!req.cancelled) { <apply f> }` at token `t`. -/
def applyGuarded {V : Type} (f : ReqState V → ReqState V)
    (store : List (ReqState V)) (t : Nat) : List (ReqState V) :=
  let r := getReq store t
  if r.cancelled then store else store.set t (f r)

/-- `for (const req of requests) if (!req.cancelled) { <apply f> }`. -/
def applyGuardedList {V : Type} (f : ReqState V → ReqState V) :
    List (ReqState V) → List Nat → List (ReqState V)
  | store, [] => store
  | store, t :: ts => applyGuardedList f (applyGuarded f store t) ts

/-- `for (const entry of entries) for (const req of entry.requests)
if (!req.cancelled) { <apply f> }` — the loop shape of whole-batch `cancel`
and of the processor-failure branch of `triggerBatch`. -/
def entriesFold {I P V : Type} (f : ReqState V → ReqState V) :
    List (Entry I P) → List (ReqState V) → List (ReqState V)
  | [], store => store
  | e :: rest, store => entriesFold f rest (applyGuardedList f store e.requests)

/-- The `entryResult`/`entryError` bookkeeping of `triggerBatch`:
run the resolver for one entry, then either reject (when the caught value is
not `undefined`) or resolve each request with `entryResult`. -/
inductive ResolverRes (V : Type) where
  | ok (v : JsVal V)
  | thrown (e : JsVal V)
  deriving DecidableEq, Repr

/-- Settlement of a single live request in the success branch of
`triggerBatch`: `entryError !== undefined ? req.reject(entryError) :
req.resolve(entryResult)`. -/
def settleOutcome {V : Type} [DecidableEq V] (res : ResolverRes V) (r : ReqState V) : ReqState V :=
  let entryResult : JsVal V := match res with | .ok v => v | .thrown _ => .undef
  let entryError : JsVal V := match res with | .ok _ => .undef | .thrown e => e
  if entryError ≠ JsVal.undef then r.rejectWith entryError else r.resolveWith entryResult

/-- A caller-supplied scheduler: `(firstRequestTime, lastRequestTime,
batchSize) => delay`. -/
abbrev Scheduler := Int → Int → Nat → Int

/-- An `AbortSignal` as observed by `createPromiseHandle`. -/
structure AbortSig (V : Type) where
  aborted : Bool
  reason : JsVal V
  deriving DecidableEq, Repr

/-- `resetCurrentBatch`: clear the pending map, clear the timer, clear both
window timestamps. -/
def resetCurrentBatch {I P V : Type} (s : MState I P V) : MState I P V :=
  { s with pending := [], timer := none, firstRequestTime := none, lastRequestTime := none }

/-- The `handle.cancel(reason)` closure created by `createPromiseHandle` for
request `token` under id `reqId`: look the entry up in the *current* pending
map, locate this request by promise identity, reject it if not yet cancelled
(defaulting the reason to a `BatchCancellationError`), splice it out, and drop
the entry / reset the batch when lists become empty. -/
def handleCancel {I P V : Type} [DecidableEq I] [DecidableEq V] (reqId : RId I) (token : Nat)
    (reason : JsVal V) (s : MState I P V) : MState I P V :=
  match s.pending.find? (fun e => e.id == reqId) with
  | none => s
  | some entry =>
    if entry.requests.contains token then
      let r := getReq s.store token
      let store' :=
        if r.cancelled then s.store
        else s.store.set token (r.cancelWith (if reason == JsVal.undef then JsVal.cancelErr else reason))
      let newReqs := entry.requests.erase token
      let pending' :=
        if newReqs.isEmpty then s.pending.filter (fun e => !(e.id == reqId))
        else s.pending.map (fun e => if e.id == reqId then { e with requests := newReqs } else e)
      let s1 := { s with store := store', pending := pending' }
      if pending'.isEmpty then resetCurrentBatch s1 else s1
    else s

/-- `createPromiseHandle(reqId, signal)`: create a fresh promise/request pair
(a fresh token) and, if the signal is already aborted, immediately invoke the
`handle.cancel(signal.reason)` closure on the current state. Returns the token
of the new request and the updated state. -/
def createPromiseHandle {I P V : Type} [DecidableEq I] [DecidableEq V] (reqId : RId I)
    (signal : Option (AbortSig V)) (s : MState I P V) : Nat × MState I P V :=
  let token := s.store.length
  let s1 := { s with store := s.store ++ [ReqState.initial] }
  match signal with
  | some sig => if sig.aborted then (token, handleCancel reqId token sig.reason s1) else (token, s1)
  | none => (token, s1)

/-- `manageTimersAndScheduler()`: set `firstRequestTime` if unset, set
`lastRequestTime := now`, ask the scheduler for a delay over the number of
pending entries, clear any armed timer and arm a new one for the clamped
delay. -/
def manageTimersAndScheduler {I P V : Type} (now : Int) (sched : Scheduler)
    (s : MState I P V) : MState I P V :=
  let first := s.firstRequestTime.getD now
  let delay := sched first now s.pending.length
  { s with firstRequestTime := some first, lastRequestTime := some now,
           timer := some (max 0 delay) }

/-- The argument of `enqueue`: a bare id, or `{ payload, id? }`. -/
inductive EnqueueReq (I P : Type) where
  | bare (i : I)
  | obj (id : Option I) (payload : P)
  deriving DecidableEq, Repr

/-- `enqueue(request, signal?)` at physical time `now` with scheduler `sched`:
determine the id (generating a fresh `Symbol()` when absent) and payload,
append a fresh request handle to the existing entry for this id
(deduplication) or create a new entry, then re-evaluate the scheduler and
re-arm the timer.  Returns the updated state and the token of the new
handle. -/
def enqueue {I P V : Type} [DecidableEq I] [DecidableEq V] (request : EnqueueReq I P)
    (signal : Option (AbortSig V)) (now : Int) (sched : Scheduler)
    (s : MState I P V) : MState I P V × Nat :=
  let idAndState : RId I × MState I P V :=
    match request with
    | .bare i => (.ext i, s)
    | .obj (some i) _ => (.ext i, s)
    | .obj none _ => (.gen s.symCounter, { s with symCounter := s.symCounter + 1 })
  let reqId := idAndState.1
  let s0 := idAndState.2
  let payload : Option P := match request with | .bare _ => none | .obj _ p => some p
  match s0.pending.find? (fun e => e.id == reqId) with
  | some _ =>
    let (token, s1) := createPromiseHandle reqId signal s0
    let pending' := s1.pending.map
      (fun e => if e.id == reqId then { e with requests := e.requests ++ [token] } else e)
    let s2 := { s1 with pending := pending' }
    (manageTimersAndScheduler now sched s2, token)
  | none =>
    let (token, s1) := createPromiseHandle reqId signal s0
    let s2 := { s1 with pending := s1.pending ++ [⟨reqId, payload, [token]⟩] }
    (manageTimersAndScheduler now sched s2, token)

/-- `BatchManager.cancel(id?)`: cancel every pending handle (no-argument form)
or every handle under one id, rejecting each not-yet-cancelled one with a
`BatchCancellationError`, then reset the batch window state when the pending
map is (or becomes) empty. -/
def cancel {I P V : Type} [DecidableEq I] (id? : Option (RId I))
    (s : MState I P V) : MState I P V :=
  match id? with
  | none =>
    let store' := entriesFold (fun r => r.cancelWith .cancelErr) s.pending s.store
    resetCurrentBatch { s with store := store' }
  | some id =>
    match s.pending.find? (fun e => e.id == id) with
    | none => s
    | some entry =>
      let store' := applyGuardedList (fun r => r.cancelWith .cancelErr) s.store entry.requests
      let pending' := s.pending.filter (fun e => !(e.id == id))
      let s1 := { s with store := store', pending := pending' }
      if pending'.isEmpty then resetCurrentBatch s1 else s1

/-- What a flush reported to the outside world: the request list of each
invocation of the processing function (structurally at most one per flush) and
the `{id, payload}` descriptor of each invocation of the resolution policy. -/
structure FlushReport (I P : Type) where
  procCalls : List (List (RId I × Option P))
  resolverCalls : List (RId I × Option P)
  deriving DecidableEq, Repr

/-- The success loop of `triggerBatch`: for each snapshotted entry, skip it if
every request under it is cancelled, otherwise run the resolver once and
settle each non-cancelled request. The accumulator carries the store and the
list of resolver invocations. -/
def successFold {I P V C : Type} [DecidableEq V]
    (resolver : C → RId I → Option P → ResolverRes V) (combinedResponse : C) :
    List (Entry I P) → List (ReqState V) → List (ReqState V) × List (RId I × Option P)
  | [], store => (store, [])
  | e :: rest, store =>
    if e.requests.all (fun t => (getReq store t).cancelled) then
      successFold resolver combinedResponse rest store
    else
      let res := successFold resolver combinedResponse rest
        (applyGuardedList (settleOutcome (resolver combinedResponse e.id e.payload)) store e.requests)
      (res.1, (e.id, e.payload) :: res.2)

/-- `triggerBatch()` with the externally supplied processing function `proc`
and resolution policy `resolver`: snapshot the pending entries, reset the
batch window state, and (when the snapshot is non-empty) invoke the processor
once with one `{id, payload}` unit per entry; on failure reject every
non-cancelled snapshotted request with the error, on success run the
per-entry resolution loop. -/
def triggerBatch {I P V C : Type} [DecidableEq V]
    (proc : List (RId I × Option P) → Except (JsVal V) C)
    (resolver : C → RId I → Option P → ResolverRes V)
    (s : MState I P V) : MState I P V × FlushReport I P :=
  let currentBatchEntries := s.pending
  let s1 := resetCurrentBatch s
  if currentBatchEntries.isEmpty then (s1, ⟨[], []⟩)
  else
    let requestList := currentBatchEntries.map (fun e => (e.id, e.payload))
    match proc requestList with
    | .error error =>
      let store' := entriesFold (fun r => r.rejectWith error) currentBatchEntries s1.store
      ({ s1 with store := store' }, ⟨[requestList], []⟩)
    | .ok combinedResponse =>
      let res := successFold resolver combinedResponse currentBatchEntries s1.store
      ({ s1 with store := res.1 }, ⟨[requestList], res.2⟩)

/-- Well-formedness of a manager state, maintained by every reachable state:
pending ids are distinct (they key a `Map`), request tokens are globally
distinct (each promise object belongs to one entry), and every token indexes
into the store. -/
def MState.WF {I P V : Type} (s : MState I P V) : Prop :=
  (s.pending.map (fun e => e.id)).Nodup ∧
  ((s.pending.map (fun e => e.requests)).flatten).Nodup ∧
  ∀ e ∈ s.pending, ∀ t ∈ e.requests, t < s.store.length

instance {I P V : Type} [DecidableEq I] (s : MState I P V) : Decidable s.WF := by
  unfold MState.WF; infer_instance

/-! ## Reference schedulers (`src/schedulers.ts`) -/

/-- The guard `maxBatchSize !== undefined && batchSize >= maxBatchSize` shared
by both schedulers. -/
def maxBatchHit (maxBatchSize : Option Nat) (batchSize : Nat) : Bool :=
  match maxBatchSize with
  | some m => decide (batchSize ≥ m)
  | none => false

/-- `createFixedWindowScheduler(windowMs, maxBatchSize?)`, with the closure's
`Date.now()` passed explicitly as `now`. -/
def createFixedWindowScheduler (windowMs : Int) (maxBatchSize : Option Nat)
    (now : Int) : Scheduler :=
  fun firstRequestTime _lastRequestTime batchSize =>
    if maxBatchHit maxBatchSize batchSize then 0
    else
      let elapsed := now - firstRequestTime
      let remaining := windowMs - elapsed
      max 0 remaining

/-- `createDebouncedScheduler(delayMs, maxWaitMs, maxBatchSize?)`, with the
closure's `Date.now()` passed explicitly as `now`. -/
def createDebouncedScheduler (delayMs maxWaitMs : Int) (maxBatchSize : Option Nat)
    (now : Int) : Scheduler :=
  fun firstRequestTime lastRequestTime batchSize =>
    if maxBatchHit maxBatchSize batchSize then 0
    else
      let timeSinceLast := now - lastRequestTime
      let timeSinceFirst := now - firstRequestTime
      let maxWaitRemaining := maxWaitMs - timeSinceFirst
      let debounceRemaining := delayMs - timeSinceLast
      let remaining := min maxWaitRemaining debounceRemaining
      max 0 remaining

/-! ## Reference resolvers (`src/resolvers.ts`) -/

/-- The combined response accepted by `createKeyResolver`: a plain keyed
record or a `Map`, both modelled as association lists. -/
inductive KeyResp (K V : Type) where
  | record (entries : List (K × JsVal V))
  | assocMap (entries : List (K × JsVal V))
  deriving DecidableEq, Repr

/-- `createKeyResolver()`: look the request id up as a key of the combined
response; a missing key yields `undefined` (JS indexing / `Map.get`). -/
def createKeyResolver {K P V : Type} [DecidableEq K]
    (combinedResponse : KeyResp K V) (id : K) (_payload : Option P) : ResolverRes V :=
  match combinedResponse with
  | .assocMap entries => .ok (((entries.find? (fun kv => kv.1 == id)).map (fun kv => kv.2)).getD .undef)
  | .record entries => .ok (((entries.find? (fun kv => kv.1 == id)).map (fun kv => kv.2)).getD .undef)

/-- `createArrayIndexResolver()`: index the combined response array with the
request id; an out-of-range index yields `undefined`. -/
def createArrayIndexResolver {P V : Type}
    (combinedResponse : List (JsVal V)) (id : Nat) (_payload : Option P) : ResolverRes V :=
  .ok ((combinedResponse.get? id).getD .undef)

/-- Enqueue one request per payload in `ps`, all under the same explicit id
`X`, at the same time `now` (left to right). -/
def enqueueMany {I P V : Type} [DecidableEq I] [DecidableEq V] (X : I) (ps : List P)
    (now : Int) (sched : Scheduler) (s : MState I P V) : MState I P V :=
  ps.foldl (fun s p => (enqueue (.obj (some X) p) none now sched s).1) s

/-! Concrete fixtures used to exercise the theorems on executable inputs. -/

/-- A two-entry manager state over `I = P = V = Nat`. -/
def sampleState : MState Nat Nat Nat :=
  ⟨[⟨.ext 1, none, [0]⟩, ⟨.ext 2, some 9, [1, 2]⟩],
   [ReqState.initial, ReqState.initial, ReqState.initial], some 0, some 0, some 5, 0⟩

/-- A constant-delay scheduler. -/
def sampleSched : Scheduler := fun _ _ _ => 5

/-- A processing function that always succeeds with combined response `0`. -/
def sampleProcOk : List (RId Nat × Option Nat) → Except (JsVal Nat) Nat :=
  fun _ => .ok 0

/-- A processing function that always fails with `ext 5`. -/
def sampleProcErr : List (RId Nat × Option Nat) → Except (JsVal Nat) Nat :=
  fun _ => .error (.ext 5)

/-- A resolution policy returning the numeric id itself. -/
def sampleResolver : Nat → RId Nat → Option Nat → ResolverRes Nat :=
  fun _ i _ => match i with | .ext n => .ok (.ext n) | .gen _ => .ok .undef

end EasySync

/-! ## Lemmas about the request store -/

namespace EasySync

theorem ReqState.cancelled_resolveWith {V : Type} (r : ReqState V) (v : JsVal V) :
    (r.resolveWith v).cancelled = r.cancelled := by
  unfold ReqState.resolveWith; cases r.settled <;> rfl

theorem ReqState.cancelled_rejectWith {V : Type} (r : ReqState V) (e : JsVal V) :
    (r.rejectWith e).cancelled = r.cancelled := by
  unfold ReqState.rejectWith; cases r.settled <;> rfl

theorem ReqState.settled_resolveWith_of_settled {V : Type} (r : ReqState V) (v : JsVal V)
    (x : Settlement V) (h : r.settled = some x) : (r.resolveWith v).settled = some x := by
  unfold ReqState.resolveWith; rw [h]; exact h

theorem ReqState.settled_rejectWith_of_settled {V : Type} (r : ReqState V) (e : JsVal V)
    (x : Settlement V) (h : r.settled = some x) : (r.rejectWith e).settled = some x := by
  unfold ReqState.rejectWith; rw [h]; exact h

theorem settleOutcome_cancelled {V : Type} [DecidableEq V] (res : ResolverRes V) (r : ReqState V) :
    (settleOutcome res r).cancelled = r.cancelled := by
  unfold settleOutcome
  dsimp only
  split
  · exact r.cancelled_rejectWith _
  · exact r.cancelled_resolveWith _

theorem settleOutcome_ok {V : Type} [DecidableEq V] (v : JsVal V) (r : ReqState V) :
    settleOutcome (.ok v) r = r.resolveWith v := by
  unfold settleOutcome; simp

theorem settleOutcome_thrown_undef {V : Type} [DecidableEq V] (r : ReqState V) :
    settleOutcome (.thrown .undef) r = r.resolveWith .undef := by
  unfold settleOutcome; simp

theorem settleOutcome_thrown {V : Type} [DecidableEq V] (e : JsVal V) (r : ReqState V)
    (h : e ≠ .undef) : settleOutcome (.thrown e) r = r.rejectWith e := by
  unfold settleOutcome; simp [h]

theorem getReq_set_ne {V : Type} (store : List (ReqState V)) (r : ReqState V) {t t' : Nat}
    (h : t' ≠ t) : getReq (store.set t r) t' = getReq store t' := by
  unfold getReq
  rw [List.get?_set_ne r store (Ne.symm h)]

theorem getReq_set_self {V : Type} (store : List (ReqState V)) (r : ReqState V) {t : Nat}
    (h : t < store.length) : getReq (store.set t r) t = r := by
  unfold getReq
  rw [List.get?_set_eq]
  cases hx : store.get? t with
  | none =>
    exact absurd (List.get?_eq_none.mp hx) (by omega)
  | some x => simp [hx]

theorem length_applyGuarded {V : Type} (f : ReqState V → ReqState V)
    (store : List (ReqState V)) (t : Nat) :
    (applyGuarded f store t).length = store.length := by
  unfold applyGuarded
  dsimp only
  split
  · rfl
  · exact store.length_set t _

theorem getReq_applyGuarded_ne {V : Type} (f : ReqState V → ReqState V)
    (store : List (ReqState V)) {t t' : Nat} (h : t' ≠ t) :
    getReq (applyGuarded f store t) t' = getReq store t' := by
  unfold applyGuarded
  dsimp only
  split
  · rfl
  · exact getReq_set_ne store _ h

theorem getReq_applyGuarded_self {V : Type} (f : ReqState V → ReqState V)
    (store : List (ReqState V)) {t : Nat} (h : t < store.length) :
    getReq (applyGuarded f store t) t =
      if (getReq store t).cancelled then getReq store t else f (getReq store t) := by
  unfold applyGuarded
  dsimp only
  split <;> rename_i hc
  · rfl
  · exact getReq_set_self store _ h

theorem cancelled_applyGuarded {V : Type} (f : ReqState V → ReqState V)
    (hf : ∀ r, (f r).cancelled = r.cancelled) (store : List (ReqState V)) (t t' : Nat) :
    (getReq (applyGuarded f store t) t').cancelled = (getReq store t').cancelled := by
  by_cases h : t' = t
  · subst h
    by_cases hlen : t' < store.length
    · rw [getReq_applyGuarded_self f store hlen]
      split
      · rfl
      · exact hf _
    · unfold applyGuarded
      dsimp only
      split
      · rfl
      · rw [List.set_eq_of_length_le (by omega)]
  · rw [getReq_applyGuarded_ne f store h]

theorem length_applyGuardedList {V : Type} (f : ReqState V → ReqState V)
    (store : List (ReqState V)) (ts : List Nat) :
    (applyGuardedList f store ts).length = store.length := by
  induction ts generalizing store with
  | nil => rfl
  | cons t ts ih => rw [applyGuardedList, ih, length_applyGuarded]

theorem getReq_applyGuardedList_not_mem {V : Type} (f : ReqState V → ReqState V)
    (store : List (ReqState V)) {t : Nat} {ts : List Nat} (h : t ∉ ts) :
    getReq (applyGuardedList f store ts) t = getReq store t := by
  induction ts generalizing store with
  | nil => rfl
  | cons a ts ih =>
    rw [applyGuardedList, ih _ (fun hm => h (List.mem_cons_of_mem a hm)),
      getReq_applyGuarded_ne f store (fun he : t = a => h (by rw [he]; exact List.mem_cons_self a ts))]

theorem cancelled_applyGuardedList {V : Type} (f : ReqState V → ReqState V)
    (hf : ∀ r, (f r).cancelled = r.cancelled) (store : List (ReqState V)) (ts : List Nat)
    (t : Nat) :
    (getReq (applyGuardedList f store ts) t).cancelled = (getReq store t).cancelled := by
  induction ts generalizing store with
  | nil => rfl
  | cons a ts ih => rw [applyGuardedList, ih, cancelled_applyGuarded f hf]

theorem getReq_applyGuardedList_mem {V : Type} (f : ReqState V → ReqState V)
    (store : List (ReqState V)) {t : Nat} {ts : List Nat} (hnd : ts.Nodup) (ht : t ∈ ts)
    (hlen : t < store.length) :
    getReq (applyGuardedList f store ts) t =
      if (getReq store t).cancelled then getReq store t else f (getReq store t) := by
  induction ts generalizing store with
  | nil => cases ht
  | cons a ts ih =>
    rw [applyGuardedList]
    rcases List.mem_cons.mp ht with he | hm
    · subst he
      have hnotin : t ∉ ts := (List.nodup_cons.mp hnd).1
      rw [getReq_applyGuardedList_not_mem f _ hnotin, getReq_applyGuarded_self f store hlen]
    · have hne : t ≠ a := by
        intro he; exact (List.nodup_cons.mp hnd).1 (he ▸ hm)
      rw [ih _ (List.nodup_cons.mp hnd).2 hm
        (by rw [length_applyGuarded]; exact hlen),
        getReq_applyGuarded_ne f store hne]

end EasySync

namespace EasySync

theorem length_entriesFold {I P V : Type} (f : ReqState V → ReqState V)
    (entries : List (Entry I P)) (store : List (ReqState V)) :
    (entriesFold f entries store).length = store.length := by
  induction entries generalizing store with
  | nil => rfl
  | cons e rest ih => rw [entriesFold, ih, length_applyGuardedList]

theorem getReq_entriesFold_not_mem {I P V : Type} (f : ReqState V → ReqState V)
    {t : Nat} {entries : List (Entry I P)} (store : List (ReqState V))
    (h : ∀ e ∈ entries, t ∉ e.requests) :
    getReq (entriesFold f entries store) t = getReq store t := by
  induction entries generalizing store with
  | nil => rfl
  | cons e rest ih =>
    rw [entriesFold, ih _ (fun e' he' => h e' (List.mem_cons_of_mem e he')),
      getReq_applyGuardedList_not_mem f store (h e (List.mem_cons_self e rest))]

theorem cancelled_entriesFold {I P V : Type} (f : ReqState V → ReqState V)
    (hf : ∀ r, (f r).cancelled = r.cancelled) (entries : List (Entry I P))
    (store : List (ReqState V)) (t : Nat) :
    (getReq (entriesFold f entries store) t).cancelled = (getReq store t).cancelled := by
  induction entries generalizing store with
  | nil => rfl
  | cons e rest ih => rw [entriesFold, ih, cancelled_applyGuardedList f hf]

theorem getReq_entriesFold_mem {I P V : Type} (f : ReqState V → ReqState V)
    {t : Nat} {e : Entry I P} {entries : List (Entry I P)} (store : List (ReqState V))
    (hflat : ((entries.map (fun e => e.requests)).flatten).Nodup)
    (hb : ∀ e' ∈ entries, ∀ u ∈ e'.requests, u < store.length)
    (he : e ∈ entries) (ht : t ∈ e.requests) :
    getReq (entriesFold f entries store) t =
      if (getReq store t).cancelled then getReq store t else f (getReq store t) := by
  induction entries generalizing store with
  | nil => cases he
  | cons e0 rest ih =>
    rw [List.map_cons, List.flatten_cons, List.nodup_append] at hflat
    rw [entriesFold]
    rcases List.mem_cons.mp he with he0 | hrest
    · subst he0
      have hnotin : ∀ e' ∈ rest, t ∉ e'.requests := fun e' he' hmem =>
        hflat.2.2 ht (List.mem_flatten.mpr ⟨e'.requests, List.mem_map_of_mem _ he', hmem⟩)
      rw [getReq_entriesFold_not_mem f _ hnotin,
        getReq_applyGuardedList_mem f store hflat.1 ht (hb e (List.mem_cons_self e rest) t ht)]
    · have htn0 : t ∉ e0.requests := fun hmem =>
        hflat.2.2 hmem (List.mem_flatten.mpr ⟨e.requests, List.mem_map_of_mem _ hrest, ht⟩)
      rw [ih _ hflat.2.1
        (fun e' he' u hu => by
          rw [length_applyGuardedList]; exact hb e' (List.mem_cons_of_mem e0 he') u hu)
        hrest,
        getReq_applyGuardedList_not_mem f store htn0]

theorem allCongr {α : Type} (p q : α → Bool) (l : List α) (h : ∀ a ∈ l, p a = q a) :
    l.all p = l.all q := by
  induction l with
  | nil => rfl
  | cons a l ih =>
    rw [List.all_cons, List.all_cons, h a (List.mem_cons_self a l),
      ih (fun b hb => h b (List.mem_cons_of_mem a hb))]

theorem length_successFold {I P V C : Type} [DecidableEq V]
    (resolver : C → RId I → Option P → ResolverRes V) (cr : C)
    (entries : List (Entry I P)) (store : List (ReqState V)) :
    (successFold resolver cr entries store).1.length = store.length := by
  induction entries generalizing store with
  | nil => rfl
  | cons e rest ih =>
    rw [successFold]
    split
    · exact ih store
    · dsimp only
      rw [ih, length_applyGuardedList]

theorem cancelled_successFold {I P V C : Type} [DecidableEq V]
    (resolver : C → RId I → Option P → ResolverRes V) (cr : C)
    (entries : List (Entry I P)) (store : List (ReqState V)) (t : Nat) :
    (getReq (successFold resolver cr entries store).1 t).cancelled =
      (getReq store t).cancelled := by
  induction entries generalizing store with
  | nil => rfl
  | cons e rest ih =>
    rw [successFold]
    split
    · exact ih store
    · dsimp only
      rw [ih, cancelled_applyGuardedList _ (settleOutcome_cancelled _)]

theorem getReq_successFold_not_mem {I P V C : Type} [DecidableEq V]
    (resolver : C → RId I → Option P → ResolverRes V) (cr : C)
    {t : Nat} {entries : List (Entry I P)} (store : List (ReqState V))
    (h : ∀ e ∈ entries, t ∉ e.requests) :
    getReq (successFold resolver cr entries store).1 t = getReq store t := by
  induction entries generalizing store with
  | nil => rfl
  | cons e rest ih =>
    rw [successFold]
    split
    · exact ih _ (fun e' he' => h e' (List.mem_cons_of_mem e he'))
    · dsimp only
      rw [ih _ (fun e' he' => h e' (List.mem_cons_of_mem e he')),
        getReq_applyGuardedList_not_mem _ store (h e (List.mem_cons_self e rest))]

theorem getReq_successFold_mem {I P V C : Type} [DecidableEq V]
    (resolver : C → RId I → Option P → ResolverRes V) (cr : C)
    {t : Nat} {e : Entry I P} {entries : List (Entry I P)} (store : List (ReqState V))
    (hflat : ((entries.map (fun e => e.requests)).flatten).Nodup)
    (hb : ∀ e' ∈ entries, ∀ u ∈ e'.requests, u < store.length)
    (he : e ∈ entries) (ht : t ∈ e.requests) :
    getReq (successFold resolver cr entries store).1 t =
      if e.requests.all (fun u => (getReq store u).cancelled) then getReq store t
      else if (getReq store t).cancelled then getReq store t
      else settleOutcome (resolver cr e.id e.payload) (getReq store t) := by
  induction entries generalizing store with
  | nil => cases he
  | cons e0 rest ih =>
    rw [List.map_cons, List.flatten_cons, List.nodup_append] at hflat
    rw [successFold]
    rcases List.mem_cons.mp he with he0 | hrest
    · subst he0
      have hnotin : ∀ e' ∈ rest, t ∉ e'.requests := fun e' he' hmem =>
        hflat.2.2 ht (List.mem_flatten.mpr ⟨e'.requests, List.mem_map_of_mem _ he', hmem⟩)
      split <;> rename_i hall
      · rw [getReq_successFold_not_mem resolver cr _ hnotin]
      · dsimp only
        rw [getReq_successFold_not_mem resolver cr _ hnotin,
          getReq_applyGuardedList_mem _ store hflat.1 ht (hb e (List.mem_cons_self e rest) t ht)]
    · have htn0 : t ∉ e0.requests := fun hmem =>
        hflat.2.2 hmem (List.mem_flatten.mpr ⟨e.requests, List.mem_map_of_mem _ hrest, ht⟩)
      have hbrest : ∀ st' : List (ReqState V), st'.length = store.length →
          ∀ e' ∈ rest, ∀ u ∈ e'.requests, u < st'.length := fun st' hl e' he' u hu => by
        rw [hl]; exact hb e' (List.mem_cons_of_mem e0 he') u hu
      split
      · exact ih store hflat.2.1 (hbrest store rfl) hrest
      · dsimp only
        rw [ih _ hflat.2.1 (hbrest _ (length_applyGuardedList _ _ _)) hrest,
          getReq_applyGuardedList_not_mem _ store htn0]
        have hcall : ∀ u ∈ e.requests,
            ((getReq (applyGuardedList (settleOutcome (resolver cr e0.id e0.payload)) store
              e0.requests) u).cancelled : Bool) = ((getReq store u).cancelled : Bool) :=
          fun u _ => cancelled_applyGuardedList _ (settleOutcome_cancelled _) store _ u
        rw [allCongr _ _ _ hcall]

theorem calls_successFold {I P V C : Type} [DecidableEq V]
    (resolver : C → RId I → Option P → ResolverRes V) (cr : C)
    (entries : List (Entry I P)) (store : List (ReqState V)) :
    (successFold resolver cr entries store).2 =
      (entries.filter
        (fun e => !(e.requests.all (fun u => (getReq store u).cancelled)))).map
        (fun e => (e.id, e.payload)) := by
  induction entries generalizing store with
  | nil => rfl
  | cons e rest ih =>
    rw [successFold, List.filter_cons]
    split <;> rename_i hall
    · rw [ih, if_neg (by simp [hall])]
    · dsimp only
      rw [ih, if_pos (by simp [hall]), List.map_cons]
      have hcall : ∀ e' ∈ rest,
          (!(e'.requests.all (fun u =>
            (getReq (applyGuardedList (settleOutcome (resolver cr e.id e.payload)) store
              e.requests) u).cancelled)) : Bool) =
          (!(e'.requests.all (fun u => (getReq store u).cancelled)) : Bool) := by
        intro e' _
        have := allCongr
          (fun u => (getReq (applyGuardedList (settleOutcome (resolver cr e.id e.payload)) store
            e.requests) u).cancelled)
          (fun u => (getReq store u).cancelled) e'.requests
          (fun u _ => cancelled_applyGuardedList _ (settleOutcome_cancelled _) store _ u)
        rw [this]
      rw [List.filter_congr hcall]

end EasySync

namespace EasySync

theorem triggerBatch_state_reset {I P V C : Type} [DecidableEq V]
    (proc : List (RId I × Option P) → Except (JsVal V) C)
    (resolver : C → RId I → Option P → ResolverRes V) (s : MState I P V) :
    (triggerBatch proc resolver s).1.pending = [] ∧
    (triggerBatch proc resolver s).1.timer = none ∧
    (triggerBatch proc resolver s).1.firstRequestTime = none ∧
    (triggerBatch proc resolver s).1.lastRequestTime = none ∧
    (triggerBatch proc resolver s).1.store.length = s.store.length ∧
    (triggerBatch proc resolver s).1.symCounter = s.symCounter := by
  unfold triggerBatch
  dsimp only
  split
  · simp [resetCurrentBatch]
  · split <;> simp [resetCurrentBatch, length_entriesFold, length_successFold]

theorem triggerBatch_procCalls {I P V C : Type} [DecidableEq V]
    (proc : List (RId I × Option P) → Except (JsVal V) C)
    (resolver : C → RId I → Option P → ResolverRes V) (s : MState I P V) :
    (triggerBatch proc resolver s).2.procCalls =
      if s.pending.isEmpty then []
      else [s.pending.map (fun e => (e.id, e.payload))] := by
  unfold triggerBatch
  dsimp only
  split <;> rename_i hemp
  · rfl
  · split <;> rfl

theorem triggerBatch_resolverCalls_failure {I P V C : Type} [DecidableEq V]
    (proc : List (RId I × Option P) → Except (JsVal V) C)
    (resolver : C → RId I → Option P → ResolverRes V) (s : MState I P V) (err : JsVal V)
    (hp : proc (s.pending.map (fun e => (e.id, e.payload))) = .error err) :
    (triggerBatch proc resolver s).2.resolverCalls = [] := by
  unfold triggerBatch
  dsimp only
  split
  · rfl
  · rw [hp]

theorem triggerBatch_store_failure {I P V C : Type} [DecidableEq V]
    (proc : List (RId I × Option P) → Except (JsVal V) C)
    (resolver : C → RId I → Option P → ResolverRes V) (s : MState I P V) (err : JsVal V)
    {e : Entry I P} {t : Nat}
    (hflat : ((s.pending.map (fun e => e.requests)).flatten).Nodup)
    (hb : ∀ e' ∈ s.pending, ∀ u ∈ e'.requests, u < s.store.length)
    (hp : proc (s.pending.map (fun e => (e.id, e.payload))) = .error err)
    (he : e ∈ s.pending) (ht : t ∈ e.requests) :
    getReq (triggerBatch proc resolver s).1.store t =
      if (getReq s.store t).cancelled then getReq s.store t
      else (getReq s.store t).rejectWith err := by
  unfold triggerBatch
  dsimp only
  split <;> rename_i hemp
  · rw [List.isEmpty_iff] at hemp
    rw [hemp] at he
    cases he
  · rw [hp]
    exact getReq_entriesFold_mem _ s.store hflat hb he ht

theorem triggerBatch_store_success {I P V C : Type} [DecidableEq V]
    (proc : List (RId I × Option P) → Except (JsVal V) C)
    (resolver : C → RId I → Option P → ResolverRes V) (s : MState I P V) (cr : C)
    {e : Entry I P} {t : Nat}
    (hflat : ((s.pending.map (fun e => e.requests)).flatten).Nodup)
    (hb : ∀ e' ∈ s.pending, ∀ u ∈ e'.requests, u < s.store.length)
    (hp : proc (s.pending.map (fun e => (e.id, e.payload))) = .ok cr)
    (he : e ∈ s.pending) (ht : t ∈ e.requests) :
    getReq (triggerBatch proc resolver s).1.store t =
      if e.requests.all (fun u => (getReq s.store u).cancelled) then getReq s.store t
      else if (getReq s.store t).cancelled then getReq s.store t
      else settleOutcome (resolver cr e.id e.payload) (getReq s.store t) := by
  unfold triggerBatch
  dsimp only
  split <;> rename_i hemp
  · rw [List.isEmpty_iff] at hemp
    rw [hemp] at he
    cases he
  · rw [hp]
    exact getReq_successFold_mem resolver cr s.store hflat hb he ht

theorem triggerBatch_resolverCalls_success {I P V C : Type} [DecidableEq V]
    (proc : List (RId I × Option P) → Except (JsVal V) C)
    (resolver : C → RId I → Option P → ResolverRes V) (s : MState I P V) (cr : C)
    (hp : proc (s.pending.map (fun e => (e.id, e.payload))) = .ok cr) :
    (triggerBatch proc resolver s).2.resolverCalls =
      (s.pending.filter
        (fun e => !(e.requests.all (fun u => (getReq s.store u).cancelled)))).map
        (fun e => (e.id, e.payload)) := by
  unfold triggerBatch
  dsimp only
  split <;> rename_i hemp
  · rw [List.isEmpty_iff] at hemp
    rw [hemp]
    rfl
  · rw [hp]
    exact calls_successFold resolver cr s.pending s.store

theorem triggerBatch_store_untouched {I P V C : Type} [DecidableEq V]
    (proc : List (RId I × Option P) → Except (JsVal V) C)
    (resolver : C → RId I → Option P → ResolverRes V) (s : MState I P V) {t : Nat}
    (h : ∀ e ∈ s.pending, t ∉ e.requests) :
    getReq (triggerBatch proc resolver s).1.store t = getReq s.store t := by
  unfold triggerBatch
  dsimp only
  split
  · rfl
  · split
    · exact getReq_entriesFold_not_mem _ s.store h
    · exact getReq_successFold_not_mem _ _ s.store h

end EasySync

namespace EasySync

theorem enqueue_on_empty {I P V : Type} [DecidableEq I] [DecidableEq V]
    (request : EnqueueReq I P) (signal : Option (AbortSig V)) (now : Int)
    (sched : Scheduler) (s : MState I P V) (h : s.pending = []) :
    (enqueue request signal now sched s).2 = s.store.length ∧
    (∃ rid pl, (enqueue request signal now sched s).1.pending = [⟨rid, pl, [s.store.length]⟩]) ∧
    (enqueue request signal now sched s).1.firstRequestTime =
      some (s.firstRequestTime.getD now) ∧
    (enqueue request signal now sched s).1.lastRequestTime = some now := by
  rcases request with i | ⟨oid, p⟩
  · rcases signal with _ | ⟨ab, reason⟩
    · refine ⟨?_, ⟨.ext i, none, ?_⟩, ?_, ?_⟩ <;>
        simp [enqueue, createPromiseHandle, manageTimersAndScheduler, h]
    · cases ab <;>
        refine ⟨?_, ⟨.ext i, none, ?_⟩, ?_, ?_⟩ <;>
        simp [enqueue, createPromiseHandle, handleCancel, manageTimersAndScheduler, h]
  · rcases oid with _ | i
    · rcases signal with _ | ⟨ab, reason⟩
      · refine ⟨?_, ⟨.gen s.symCounter, some p, ?_⟩, ?_, ?_⟩ <;>
          simp [enqueue, createPromiseHandle, manageTimersAndScheduler, h]
      · cases ab <;>
          refine ⟨?_, ⟨.gen s.symCounter, some p, ?_⟩, ?_, ?_⟩ <;>
          simp [enqueue, createPromiseHandle, handleCancel, manageTimersAndScheduler, h]
    · rcases signal with _ | ⟨ab, reason⟩
      · refine ⟨?_, ⟨.ext i, some p, ?_⟩, ?_, ?_⟩ <;>
          simp [enqueue, createPromiseHandle, manageTimersAndScheduler, h]
      · cases ab <;>
          refine ⟨?_, ⟨.ext i, some p, ?_⟩, ?_, ?_⟩ <;>
          simp [enqueue, createPromiseHandle, handleCancel, manageTimersAndScheduler, h]

end EasySync

/-! ## Claim theorems -/

namespace EasySync

/-- Claim C1: every timer-triggered flush snapshots the pending map as a list of
entries and fully resets the batch window state (map cleared, timer handle
nulled, both timestamps cleared) before the processing function is invoked;
the processing function is invoked at most once per flush, only when the
snapshot is non-empty, with exactly one `{identity, payload}` unit per
snapshotted entry; and any enqueue performed after the snapshot creates a fresh
handle in a fresh single-entry batch, never joining a snapshotted entry. -/
theorem flush_resets_before_processor {I P V C : Type} [DecidableEq I] [DecidableEq V]
    (proc : List (RId I × Option P) → Except (JsVal V) C)
    (resolver : C → RId I → Option P → ResolverRes V) (s : MState I P V) (hWF : s.WF) :
    (triggerBatch proc resolver s).1.pending = [] ∧
    (triggerBatch proc resolver s).1.timer = none ∧
    (triggerBatch proc resolver s).1.firstRequestTime = none ∧
    (triggerBatch proc resolver s).1.lastRequestTime = none ∧
    (triggerBatch proc resolver s).2.procCalls =
      (if s.pending.isEmpty then [] else [s.pending.map (fun e => (e.id, e.payload))]) ∧
    ∀ (request : EnqueueReq I P) (signal : Option (AbortSig V)) (now : Int) (sched : Scheduler),
      (∀ e ∈ s.pending,
        (enqueue request signal now sched (triggerBatch proc resolver s).1).2 ∉ e.requests) ∧
      ∃ rid pl,
        (enqueue request signal now sched (triggerBatch proc resolver s).1).1.pending =
          [⟨rid, pl, [(enqueue request signal now sched (triggerBatch proc resolver s).1).2]⟩] := by
  obtain ⟨hpend, htim, hfst, hlst, hlen, _⟩ := triggerBatch_state_reset proc resolver s
  refine ⟨hpend, htim, hfst, hlst, triggerBatch_procCalls proc resolver s, ?_⟩
  intro request signal now sched
  obtain ⟨htok, ⟨rid, pl, hp⟩, _, _⟩ :=
    enqueue_on_empty request signal now sched (triggerBatch proc resolver s).1 hpend
  constructor
  · intro e he hmem
    rw [htok, hlen] at hmem
    exact absurd (hWF.2.2 e he _ hmem) (lt_irrefl _)
  · refine ⟨rid, pl, ?_⟩
    rw [hp, ← htok]

/-- Witness for C1 at a concrete two-entry state. -/
theorem flush_resets_before_processor_witness :
    sampleState.WF ∧
    (triggerBatch sampleProcOk sampleResolver sampleState).1.pending = [] ∧
    (triggerBatch sampleProcOk sampleResolver sampleState).2.procCalls =
      (if sampleState.pending.isEmpty then []
       else [sampleState.pending.map (fun e => (e.id, e.payload))]) :=
  ⟨by decide,
   (flush_resets_before_processor sampleProcOk sampleResolver sampleState (by decide)).1,
   (flush_resets_before_processor sampleProcOk sampleResolver sampleState
     (by decide)).2.2.2.2.1⟩

/-- Claim C4: when the processing function of a flush fails, every non-cancelled
handle across every snapshotted entry is rejected with exactly that failure
value, the resolution policy is never invoked in that flush, and handles
already marked cancelled in the snapshot keep their previous state. -/
theorem processor_failure_rejects_all_live {I P V C : Type} [DecidableEq V]
    (proc : List (RId I × Option P) → Except (JsVal V) C)
    (resolver : C → RId I → Option P → ResolverRes V) (s : MState I P V) (err : JsVal V)
    (hWF : s.WF)
    (hp : proc (s.pending.map (fun e => (e.id, e.payload))) = .error err) :
    (triggerBatch proc resolver s).2.resolverCalls = [] ∧
    ∀ e ∈ s.pending, ∀ t ∈ e.requests,
      ((getReq s.store t).cancelled = false →
        getReq (triggerBatch proc resolver s).1.store t = (getReq s.store t).rejectWith err) ∧
      ((getReq s.store t).cancelled = true →
        getReq (triggerBatch proc resolver s).1.store t = getReq s.store t) := by
  refine ⟨triggerBatch_resolverCalls_failure proc resolver s err hp, ?_⟩
  intro e he t ht
  have h := triggerBatch_store_failure proc resolver s err hWF.2.1 hWF.2.2 hp he ht
  constructor
  · intro hc
    rw [h, if_neg (by rw [hc]; exact Bool.false_ne_true)]
  · intro hc
    rw [h, if_pos hc]

/-- Witness for C4: a failing processor rejects the live handle of entry `1`. -/
theorem processor_failure_rejects_all_live_witness :
    sampleState.WF ∧
    sampleProcErr (sampleState.pending.map (fun e => (e.id, e.payload))) =
      .error (.ext 5) ∧
    (triggerBatch sampleProcErr sampleResolver sampleState).2.resolverCalls = [] :=
  ⟨by decide, rfl,
   (processor_failure_rejects_all_live sampleProcErr sampleResolver sampleState (.ext 5)
     (by decide) rfl).1⟩

/-- Claim C5: on a successful flush, each snapshotted entry whose handles are
all cancelled is skipped entirely (the resolution policy is not invoked for
it); the resolution policy runs exactly once for every other entry, in
snapshot order; and each entry's outcome — the resolved value, or the failure
the policy threw — settles only that entry's non-cancelled handles, by a
formula depending only on that entry, so a failure in one entry never affects
sibling entries of the same flush. -/
theorem success_per_entry_isolation {I P V C : Type} [DecidableEq V]
    (proc : List (RId I × Option P) → Except (JsVal V) C)
    (resolver : C → RId I → Option P → ResolverRes V) (s : MState I P V) (cr : C)
    (hWF : s.WF)
    (hp : proc (s.pending.map (fun e => (e.id, e.payload))) = .ok cr) :
    (triggerBatch proc resolver s).2.resolverCalls =
      (s.pending.filter
        (fun e => !(e.requests.all (fun u => (getReq s.store u).cancelled)))).map
        (fun e => (e.id, e.payload)) ∧
    ∀ e ∈ s.pending, ∀ t ∈ e.requests,
      getReq (triggerBatch proc resolver s).1.store t =
        if e.requests.all (fun u => (getReq s.store u).cancelled) then getReq s.store t
        else if (getReq s.store t).cancelled then getReq s.store t
        else
          match resolver cr e.id e.payload with
          | .ok v => (getReq s.store t).resolveWith v
          | .thrown err =>
            if err = .undef then (getReq s.store t).resolveWith .undef
            else (getReq s.store t).rejectWith err := by
  refine ⟨triggerBatch_resolverCalls_success proc resolver s cr hp, ?_⟩
  intro e he t ht
  rw [triggerBatch_store_success proc resolver s cr hWF.2.1 hWF.2.2 hp he ht]
  rcases hres : resolver cr e.id e.payload with v | err
  · simp only [hres, settleOutcome_ok]
  · by_cases hu : err = JsVal.undef
    · subst hu
      simp [hres, settleOutcome_thrown_undef]
    · simp [hres, settleOutcome_thrown _ _ hu, hu]

/-- Witness for C5: both entries of the sample state are live, so the resolver
runs once per entry. -/
theorem success_per_entry_isolation_witness :
    sampleState.WF ∧
    sampleProcOk (sampleState.pending.map (fun e => (e.id, e.payload))) = .ok 0 ∧
    (triggerBatch sampleProcOk sampleResolver sampleState).2.resolverCalls =
      (sampleState.pending.filter
        (fun e => !(e.requests.all (fun u => (getReq sampleState.store u).cancelled)))).map
        (fun e => (e.id, e.payload)) :=
  ⟨by decide, rfl,
   (success_per_entry_isolation sampleProcOk sampleResolver sampleState 0
     (by decide) rfl).1⟩

/-- Claim C9: in a successful flush, an entry whose resolution policy throws the
value `undefined` has its non-cancelled handles *fulfilled* with `undefined`
(the flush treats a resolver failure as present only when the thrown value is
not `undefined`). -/
theorem resolver_thrown_undefined_fulfills {I P V C : Type} [DecidableEq V]
    (proc : List (RId I × Option P) → Except (JsVal V) C)
    (resolver : C → RId I → Option P → ResolverRes V) (s : MState I P V) (cr : C)
    (hWF : s.WF)
    (hp : proc (s.pending.map (fun e => (e.id, e.payload))) = .ok cr)
    {e : Entry I P} (he : e ∈ s.pending)
    (hth : resolver cr e.id e.payload = .thrown .undef)
    (hlive : ¬(e.requests.all (fun u => (getReq s.store u).cancelled)) = true) :
    ∀ t ∈ e.requests, (getReq s.store t).cancelled = false →
      getReq (triggerBatch proc resolver s).1.store t =
        (getReq s.store t).resolveWith .undef := by
  intro t ht hc
  rw [triggerBatch_store_success proc resolver s cr hWF.2.1 hWF.2.2 hp he ht,
    if_neg hlive, if_neg (by rw [hc]; exact Bool.false_ne_true), hth,
    settleOutcome_thrown_undef]

/-- Witness for C9: a resolver that throws `undefined` fulfils the sample
state's first handle with `undefined`. -/
theorem resolver_thrown_undefined_fulfills_witness :
    sampleState.WF ∧
    getReq (triggerBatch sampleProcOk
      (fun _ _ _ => ResolverRes.thrown .undef) sampleState).1.store 0 =
      (getReq sampleState.store 0).resolveWith .undef :=
  ⟨by decide,
   resolver_thrown_undefined_fulfills sampleProcOk
     (fun _ _ _ => ResolverRes.thrown .undef) sampleState 0 (by decide) rfl
     (List.mem_cons_self _ _) rfl (by decide)
     0 (List.mem_cons_self _ _) (by decide)⟩

end EasySync

namespace EasySync

/-- Claim C8: the debounced scheduling policy returns
`max(0, min(maxWaitMs − (now − windowStart), delayMs − (now − windowLast)))`,
except that it returns `0` whenever a max batch size is configured and the
pending count has reached it; consequently the armed flush time `now + delay`
is no earlier than the binding bound
`min(windowStart + maxWaitMs, windowLast + delayMs)` and no later than
`max(now, windowStart + maxWaitMs)`. -/
theorem debounced_scheduler_delay (delayMs maxWaitMs : Int) (maxBatchSize : Option Nat)
    (now first last : Int) (n : Nat) :
    (∀ m, maxBatchSize = some m → m ≤ n →
      createDebouncedScheduler delayMs maxWaitMs maxBatchSize now first last n = 0) ∧
    ((∀ m, maxBatchSize = some m → n < m) →
      createDebouncedScheduler delayMs maxWaitMs maxBatchSize now first last n =
        max 0 (min (maxWaitMs - (now - first)) (delayMs - (now - last))) ∧
      min (first + maxWaitMs) (last + delayMs) ≤
        now + createDebouncedScheduler delayMs maxWaitMs maxBatchSize now first last n ∧
      now + createDebouncedScheduler delayMs maxWaitMs maxBatchSize now first last n ≤
        max now (first + maxWaitMs)) := by
  constructor
  · intro m hm hle
    subst hm
    simp [createDebouncedScheduler, maxBatchHit, hle]
  · intro hlt
    have hhit : maxBatchHit maxBatchSize n = false := by
      cases maxBatchSize with
      | none => rfl
      | some m =>
        have := hlt m rfl
        simp only [maxBatchHit, decide_eq_false_iff_not]
        omega
    have hform : createDebouncedScheduler delayMs maxWaitMs maxBatchSize now first last n =
        max 0 (min (maxWaitMs - (now - first)) (delayMs - (now - last))) := by
      simp [createDebouncedScheduler, hhit]
    refine ⟨hform, ?_, ?_⟩
    · rw [hform]
      rcases le_total (maxWaitMs - (now - first)) (delayMs - (now - last)) with h | h <;>
        rcases le_total (0 : Int)
          (min (maxWaitMs - (now - first)) (delayMs - (now - last))) with h0 | h0 <;>
        simp only [min_def, max_def] at * <;> split at h0 <;> omega
    · rw [hform]
      rcases le_total (maxWaitMs - (now - first)) (delayMs - (now - last)) with h | h <;>
        rcases le_total (0 : Int)
          (min (maxWaitMs - (now - first)) (delayMs - (now - last))) with h0 | h0 <;>
        simp only [min_def, max_def] at * <;> split at h0 <;> omega

end EasySync

namespace EasySync

/-- Witness for C8: the max-batch-size override and the delay formula at
concrete inputs (`delay=10`, `maxWait=100`, first enqueue at 0, last at 95). -/
theorem debounced_scheduler_delay_witness :
    createDebouncedScheduler 10 100 (some 2) 0 0 0 3 = 0 ∧
    createDebouncedScheduler 10 100 (some 5) 95 0 95 1 =
      max 0 (min (100 - (95 - 0)) (10 - (95 - 95))) ∧
    min (0 + 100) (95 + 10) ≤ 95 + createDebouncedScheduler 10 100 (some 5) 95 0 95 1 :=
  have h := debounced_scheduler_delay 10 100 (some 5) 95 0 95 1
  have hside : ∀ m : Nat, (some 5 : Option Nat) = some m → 1 < m := fun m hm => by
    injection hm with h2
    omega
  ⟨(debounced_scheduler_delay 10 100 (some 2) 0 0 0 3).1 2 rfl (by omega),
   (h.2 hside).1, (h.2 hside).2.1⟩

/-- Claim C10: the key-lookup and array-index resolution policies never fail:
on every combined response and request they return a value (never throw),
returning `undefined` when the identity is absent as a key of the mapping or
out of range as an array index; consequently a flush routed through the key
resolver fulfils the affected handles with `undefined` instead of rejecting
them. -/
theorem reference_resolvers_total {I P V K : Type} [DecidableEq I] [DecidableEq V]
    [DecidableEq K] :
    (∀ (resp : KeyResp K V) (k : K) (p : Option P), ∃ v,
      createKeyResolver resp k p = .ok v) ∧
    (∀ (l : List (K × JsVal V)) (k : K) (p : Option P), (∀ kv ∈ l, kv.1 ≠ k) →
      createKeyResolver (KeyResp.record l) k p = .ok .undef ∧
      createKeyResolver (KeyResp.assocMap l) k p = .ok .undef) ∧
    (∀ (arr : List (JsVal V)) (i : Nat) (p : Option P), ∃ v,
      createArrayIndexResolver arr i p = .ok v) ∧
    (∀ (arr : List (JsVal V)) (i : Nat) (p : Option P), arr.length ≤ i →
      createArrayIndexResolver arr i p = .ok .undef) ∧
    (∀ (proc : List (RId I × Option P) → Except (JsVal V) (KeyResp (RId I) V))
      (s : MState I P V) (l : List (RId I × JsVal V)), s.WF →
      proc (s.pending.map (fun e => (e.id, e.payload))) = .ok (KeyResp.record l) →
      ∀ e ∈ s.pending, (∀ kv ∈ l, kv.1 ≠ e.id) →
      ¬(e.requests.all (fun u => (getReq s.store u).cancelled)) = true →
      ∀ t ∈ e.requests, (getReq s.store t).cancelled = false →
        getReq (triggerBatch proc createKeyResolver s).1.store t =
          (getReq s.store t).resolveWith .undef) := by
  have hnone : ∀ (l : List (K × JsVal V)) (k : K), (∀ kv ∈ l, kv.1 ≠ k) →
      l.find? (fun kv => kv.1 == k) = none := fun l k h =>
    List.find?_eq_none.mpr (fun kv hkv => by
      simp only [beq_iff_eq]
      exact h kv hkv)
  have hnone' : ∀ (l : List (RId I × JsVal V)) (k : RId I), (∀ kv ∈ l, kv.1 ≠ k) →
      l.find? (fun kv => kv.1 == k) = none := fun l k h =>
    List.find?_eq_none.mpr (fun kv hkv => by
      simp only [beq_iff_eq]
      exact h kv hkv)
  refine ⟨?_, ?_, ?_, ?_, ?_⟩
  · intro resp k p
    cases resp <;> exact ⟨_, rfl⟩
  · intro l k p h
    constructor <;> simp [createKeyResolver, hnone l k h]
  · intro arr i p
    exact ⟨_, rfl⟩
  · intro arr i p h
    simp [createArrayIndexResolver, List.getElem?_eq_none h]
  · intro proc s l hWF hp e he habs hlive t ht hc
    rw [triggerBatch_store_success proc createKeyResolver s (KeyResp.record l)
      hWF.2.1 hWF.2.2 hp he ht, if_neg hlive,
      if_neg (by rw [hc]; exact Bool.false_ne_true)]
    have hres : createKeyResolver (P := P) (KeyResp.record l) e.id e.payload = .ok .undef := by
      simp [createKeyResolver, hnone' l e.id habs]
    rw [hres, settleOutcome_ok]

/-- Witness for C10: the flush-level conjunct at a concrete state whose
combined response lacks both ids. -/
theorem reference_resolvers_total_witness :
    sampleState.WF ∧
    getReq (triggerBatch (fun _ => Except.ok (KeyResp.record []))
      createKeyResolver sampleState).1.store 0 =
      (getReq sampleState.store 0).resolveWith .undef :=
  ⟨by decide,
   (reference_resolvers_total (I := Nat) (P := Nat) (V := Nat) (K := Nat)).2.2.2.2
     (fun _ => Except.ok (KeyResp.record [])) sampleState [] (by decide) rfl
     ⟨.ext 1, none, [0]⟩ (List.mem_cons_self _ _) (by intro kv hkv; cases hkv)
     (by decide) 0 (List.mem_cons_self _ _) (by decide)⟩

/-- Claim C3 (the code's behaviour at the failing input): enqueueing with an
already-aborted cancellation signal does not cancel the handle.  The
`handle.cancel(signal.reason)` call inside `createPromiseHandle` runs before
the request is registered — in the new-entry path the entry is not yet in the
pending map, in the deduplication path the handle is not yet in the entry's
request list — so it finds nothing to cancel and returns.  The handle stays
pending inside the batch with an unsettled promise, identical to an enqueue
without a signal. -/
theorem aborted_signal_handle_stays_pending :
    (enqueue (I := Nat) (P := Nat) (V := Nat) (.bare 1) (some ⟨true, .ext 7⟩) 0
      sampleSched initState).1.pending = [⟨.ext 1, none, [0]⟩] ∧
    getReq (enqueue (I := Nat) (P := Nat) (V := Nat) (.bare 1) (some ⟨true, .ext 7⟩) 0
      sampleSched initState).1.store 0 = ReqState.initial ∧
    (enqueue (I := Nat) (P := Nat) (V := Nat) (.bare 1) (some ⟨true, .ext 7⟩) 0 sampleSched
      (enqueue (I := Nat) (P := Nat) (V := Nat) (.bare 1) none 0 sampleSched
        initState).1).1.pending = [⟨.ext 1, none, [0, 1]⟩] ∧
    getReq (enqueue (I := Nat) (P := Nat) (V := Nat) (.bare 1) (some ⟨true, .ext 7⟩) 0
      sampleSched (enqueue (I := Nat) (P := Nat) (V := Nat) (.bare 1) none 0 sampleSched
        initState).1).1.store 1 = ReqState.initial := by
  decide

end EasySync

namespace EasySync

theorem enqueue_step_single {I P V : Type} [DecidableEq I] [DecidableEq V] (X : I) (p : P)
    (now : Int) (sched : Scheduler) (pl : Option P) (ts : List Nat)
    (st : List (ReqState V)) (f : Int) (l tm : Option Int) (c : Nat) :
    enqueue (.obj (some X) p) none now sched
        (⟨[⟨.ext X, pl, ts⟩], st, some f, l, tm, c⟩ : MState I P V) =
      (⟨[⟨.ext X, pl, ts ++ [st.length]⟩], st ++ [ReqState.initial], some f, some now,
        some (max 0 (sched f now 1)), c⟩, st.length) := by
  simp [enqueue, createPromiseHandle, manageTimersAndScheduler, List.find?]

theorem enqueue_first_single {I P V : Type} [DecidableEq I] [DecidableEq V] (X : I) (p : P)
    (now : Int) (sched : Scheduler) :
    enqueue (.obj (some X) p) none now sched (initState : MState I P V) =
      (⟨[⟨.ext X, some p, [0]⟩], [ReqState.initial], some now, some now,
        some (max 0 (sched now now 1)), 0⟩, 0) := by
  simp [enqueue, createPromiseHandle, manageTimersAndScheduler, initState, List.find?]

theorem enqueueMany_loop {I P V : Type} [DecidableEq I] [DecidableEq V] (X : I)
    (now : Int) (sched : Scheduler) (ps : List P) :
    ∀ (pl : Option P) (ts : List Nat) (st : List (ReqState V)) (f : Int)
      (l tm : Option Int) (c : Nat),
    enqueueMany X ps now sched (⟨[⟨.ext X, pl, ts⟩], st, some f, l, tm, c⟩ : MState I P V) =
      ⟨[⟨.ext X, pl, ts ++ List.range' st.length ps.length⟩],
       st ++ List.replicate ps.length ReqState.initial, some f,
       (if ps.isEmpty then l else some now),
       (if ps.isEmpty then tm else some (max 0 (sched f now 1))), c⟩ := by
  induction ps with
  | nil =>
    intro pl ts st f l tm c
    simp [enqueueMany]
  | cons p ps ih =>
    intro pl ts st f l tm c
    simp only [enqueueMany, List.foldl_cons] at ih ⊢
    rw [enqueue_step_single X p now sched pl ts st f l tm c]
    dsimp only
    rw [ih]
    simp only [List.isEmpty_cons, List.length_append, List.length_cons, List.length_nil,
      List.append_assoc, List.singleton_append, List.replicate_succ, Bool.false_eq_true,
      if_false, ite_self]
    simp [List.range'_succ]

end EasySync

namespace EasySync

/-- Claim C2: enqueuing the same identity `X` a total of N ≥ 1 times before a
flush yields N distinct, independently settleable handles (one fresh token per
call, each with its own still-pending promise) but exactly one pending entry,
whose payload is the first payload seen for `X`; the flush passes exactly one
`{id, payload}` unit for `X` to the processing function, and on successful
resolution every (non-cancelled) handle under `X` is fulfilled with the
identical resolved value. -/
theorem enqueue_dedup_single_entry_broadcast {I P V C : Type} [DecidableEq I] [DecidableEq V]
    (X : I) (p : P) (ps : List P) (now : Int) (sched : Scheduler)
    (proc : List (RId I × Option P) → Except (JsVal V) C)
    (resolver : C → RId I → Option P → ResolverRes V) (cr : C) (v : JsVal V) :
    (enqueueMany X (p :: ps) now sched (initState : MState I P V)).pending =
      [⟨.ext X, some p, List.range (ps.length + 1)⟩] ∧
    (enqueueMany X (p :: ps) now sched (initState : MState I P V)).store =
      List.replicate (ps.length + 1) ReqState.initial ∧
    (proc [(.ext X, some p)] = .ok cr → resolver cr (.ext X) (some p) = .ok v →
      (triggerBatch proc resolver (enqueueMany X (p :: ps) now sched (initState : MState I P V))).2.procCalls =
        [[(.ext X, some p)]] ∧
      ∀ t < ps.length + 1,
        getReq (triggerBatch proc resolver
          (enqueueMany X (p :: ps) now sched (initState : MState I P V))).1.store t =
          ⟨false, some (.fulfilled v)⟩) := by
  have hstate : enqueueMany X (p :: ps) now sched (initState : MState I P V) =
      ⟨[⟨.ext X, some p, List.range (ps.length + 1)⟩],
       List.replicate (ps.length + 1) ReqState.initial, some now, some now,
       some (max 0 (sched now now 1)), 0⟩ := by
    have h1 : enqueueMany X (p :: ps) now sched (initState : MState I P V) =
        enqueueMany X ps now sched ⟨[⟨.ext X, some p, [0]⟩], [ReqState.initial], some now,
          some now, some (max 0 (sched now now 1)), 0⟩ := by
      simp only [enqueueMany, List.foldl_cons]
      rw [enqueue_first_single]
    rw [h1, enqueueMany_loop]
    simp [List.range_eq_range', List.range'_succ, List.replicate_succ, ite_self]
  have hget : ∀ u, u < ps.length + 1 →
      getReq (enqueueMany X (p :: ps) now sched (initState : MState I P V)).store u =
        ReqState.initial := by
    intro u hu
    rw [hstate]
    unfold getReq
    simp [List.get?_eq_getElem?, List.getElem?_replicate, hu]
  refine ⟨by rw [hstate], by rw [hstate], ?_⟩
  intro hp hres
  have hWF : (enqueueMany X (p :: ps) now sched (initState : MState I P V)).WF := by
    rw [hstate]
    refine ⟨by simp, by simpa using List.nodup_range (ps.length + 1), ?_⟩
    intro e he t ht
    rw [List.mem_singleton] at he
    subst he
    simp only [List.mem_range] at ht
    simpa using ht
  have hp' : proc ((enqueueMany X (p :: ps) now sched
      (initState : MState I P V)).pending.map (fun e => (e.id, e.payload))) = .ok cr := by
    rw [hstate]
    simpa using hp
  have he : (⟨.ext X, some p, List.range (ps.length + 1)⟩ : Entry I P) ∈
      (enqueueMany X (p :: ps) now sched (initState : MState I P V)).pending := by
    rw [hstate]
    exact List.mem_cons_self _ _
  constructor
  · rw [triggerBatch_procCalls, hstate]
    simp
  · intro t htlt
    have ht : t ∈ (⟨.ext X, some p, List.range (ps.length + 1)⟩ : Entry I P).requests :=
      List.mem_range.mpr htlt
    rw [triggerBatch_store_success proc resolver _ cr hWF.2.1 hWF.2.2 hp' he ht]
    have hcond : ((List.range (ps.length + 1)).all (fun u =>
        (getReq (enqueueMany X (p :: ps) now sched
          (initState : MState I P V)).store u).cancelled)) ≠ true := by
      intro hall
      have h0 := List.all_eq_true.mp hall 0 (List.mem_range.mpr (by omega))
      rw [hget 0 (by omega)] at h0
      exact Bool.false_ne_true h0
    rw [if_neg hcond, hget t htlt]
    rw [if_neg (by exact Bool.false_ne_true), hres, settleOutcome_ok]
    rfl

/-- Witness for C2 with two enqueues of id `4` (payloads 7 then 8). -/
theorem enqueue_dedup_single_entry_broadcast_witness :
    (fun _ => Except.ok 0 : List (RId Nat × Option Nat) → Except (JsVal Nat) Nat)
      [(.ext 4, some 7)] = .ok 0 ∧
    (enqueueMany 4 [7, 8] 0 sampleSched (initState : MState Nat Nat Nat)).pending =
      [⟨.ext 4, some 7, List.range 2⟩] ∧
    (triggerBatch (fun _ => Except.ok 0) (fun _ _ _ => ResolverRes.ok (.ext 9))
      (enqueueMany 4 [7, 8] 0 sampleSched (initState : MState Nat Nat Nat))).2.procCalls = [[(.ext 4, some 7)]] :=
  have h := enqueue_dedup_single_entry_broadcast 4 7 [8] 0 sampleSched
    (fun _ => Except.ok 0) (fun _ _ _ => ResolverRes.ok (.ext 9)) 0 (.ext 9)
  ⟨rfl, h.1, (h.2.2 rfl rfl).1⟩

end EasySync

namespace EasySync

/-- Claim C6: starting from a state with at least one pending handle,
no-argument `cancel` rejects every not-yet-settled (and not-yet-cancelled)
pending handle with a `BatchCancellationError`, leaves the settlement of
already-settled handles unchanged, and leaves the manager with an empty
pending map, no armed timer and cleared window timestamps; the next enqueue
therefore starts a fresh window whose start (and last) timestamp is that
enqueue's own time. -/
theorem cancel_all_clears_and_rejects {I P V : Type} [DecidableEq I] [DecidableEq V]
    (s : MState I P V) (hWF : s.WF) (hne : ∃ e ∈ s.pending, e.requests ≠ []) :
    (cancel none s).pending = [] ∧
    (cancel none s).timer = none ∧
    (cancel none s).firstRequestTime = none ∧
    (cancel none s).lastRequestTime = none ∧
    (∀ e ∈ s.pending, ∀ t ∈ e.requests,
      ((getReq s.store t).cancelled = false → (getReq s.store t).settled = none →
        getReq (cancel none s).store t = ⟨true, some (.rejected .cancelErr)⟩) ∧
      (∀ x, (getReq s.store t).settled = some x →
        (getReq (cancel none s).store t).settled = some x)) ∧
    (∀ (request : EnqueueReq I P) (signal : Option (AbortSig V)) (now : Int)
      (sched : Scheduler),
      (enqueue request signal now sched (cancel none s)).1.firstRequestTime = some now ∧
      (enqueue request signal now sched (cancel none s)).1.lastRequestTime = some now) := by
  have hceq : cancel none s = resetCurrentBatch { s with
      store := entriesFold (fun r => r.cancelWith .cancelErr) s.pending s.store } := rfl
  have hstore : (cancel none s).store =
      entriesFold (fun r => r.cancelWith .cancelErr) s.pending s.store := by rw [hceq]; rfl
  refine ⟨by rw [hceq]; rfl, by rw [hceq]; rfl, by rw [hceq]; rfl, by rw [hceq]; rfl, ?_, ?_⟩
  · intro e he t ht
    have hchar := getReq_entriesFold_mem (fun r => r.cancelWith .cancelErr) s.store
      hWF.2.1 hWF.2.2 he ht
    constructor
    · intro hc0 hs
      have hold : getReq s.store t = (⟨false, none⟩ : ReqState V) := by
        rcases hgr : getReq s.store t with ⟨c, st⟩
        rw [hgr] at hc0 hs
        dsimp at hc0 hs
        rw [hc0, hs]
      rw [hstore, hchar, hold]
      rfl
    · intro x hx
      rw [hstore, hchar]
      by_cases hcb : (getReq s.store t).cancelled = true
      · rw [if_pos hcb]
        exact hx
      · rw [if_neg hcb]
        exact ReqState.settled_rejectWith_of_settled _ _ x hx
  · intro request signal now sched
    obtain ⟨_, _, hf, hl⟩ :=
      enqueue_on_empty request signal now sched (cancel none s) (by rw [hceq]; rfl)
    refine ⟨?_, hl⟩
    rw [hf]
    have : (cancel none s).firstRequestTime = none := by rw [hceq]; rfl
    rw [this]
    rfl

/-- Witness for C6 at the sample state. -/
theorem cancel_all_clears_and_rejects_witness :
    sampleState.WF ∧
    (∃ e ∈ sampleState.pending, e.requests ≠ []) ∧
    (cancel none sampleState).pending = [] ∧
    (cancel none sampleState).timer = none :=
  have h := cancel_all_clears_and_rejects sampleState (by decide)
    ⟨⟨.ext 1, none, [0]⟩, List.mem_cons_self _ _, by decide⟩
  ⟨by decide, ⟨⟨.ext 1, none, [0]⟩, List.mem_cons_self _ _, by decide⟩, h.1, h.2.1⟩

end EasySync

namespace EasySync

theorem WF_of_filter {I P V : Type} (s : MState I P V) (hWF : s.WF)
    (q : Entry I P → Bool) (store' : List (ReqState V))
    (hlen : store'.length = s.store.length) :
    MState.WF { s with pending := s.pending.filter q, store := store' } := by
  obtain ⟨hids, hflat, hb⟩ := hWF
  obtain ⟨hcomp, hpw⟩ := List.nodup_flatten.mp hflat
  refine ⟨?_, ?_, ?_⟩
  · exact ((List.filter_sublist s.pending).map (fun e => e.id)).nodup hids
  · refine List.nodup_flatten.mpr ⟨?_, ?_⟩
    · intro r hr
      rcases List.mem_map.mp hr with ⟨e, he, rfl⟩
      exact hcomp _ (List.mem_map_of_mem _ ((List.filter_sublist s.pending).mem he))
    · exact List.pairwise_map.mpr ((List.pairwise_map.mp hpw).filter q)
  · intro e he u hu
    dsimp only at he ⊢
    rw [hlen]
    exact hb e ((List.filter_sublist s.pending).mem he) u hu

theorem WF_of_pointwise_shrink {I P V : Type} (s : MState I P V) (hWF : s.WF)
    (g : Entry I P → Entry I P) (store' : List (ReqState V))
    (hid : ∀ e, (g e).id = e.id)
    (hsub : ∀ e ∈ s.pending, ((g e).requests).Sublist e.requests)
    (hlen : store'.length = s.store.length) :
    MState.WF { s with pending := s.pending.map g, store := store' } := by
  obtain ⟨hids, hflat, hb⟩ := hWF
  obtain ⟨hcomp, hpw⟩ := List.nodup_flatten.mp hflat
  refine ⟨?_, ?_, ?_⟩
  · rw [List.map_map]
    have : s.pending.map ((fun e => e.id) ∘ g) = s.pending.map (fun e => e.id) :=
      List.map_congr_left (fun e _ => hid e)
    rw [this]
    exact hids
  · refine List.nodup_flatten.mpr ⟨?_, ?_⟩
    · intro r hr
      rw [List.map_map] at hr
      rcases List.mem_map.mp hr with ⟨e, he, rfl⟩
      exact ((hsub e he).nodup (hcomp _ (List.mem_map_of_mem _ he)))
    · rw [List.map_map]
      refine List.pairwise_map.mpr ?_
      refine (List.pairwise_map.mp hpw).imp_of_mem ?_
      intro a b ha hb' hdis x hxa hxb
      exact hdis ((hsub a ha).subset hxa) ((hsub b hb').subset hxb)
  · intro e he u hu
    dsimp only at he ⊢
    rcases List.mem_map.mp he with ⟨e0, he0, rfl⟩
    rw [hlen]
    exact hb e0 he0 u ((hsub e0 he0).subset hu)

theorem WF_of_reset {I P V : Type} (s : MState I P V) :
    MState.WF (resetCurrentBatch s) := by
  refine ⟨?_, ?_, ?_⟩
  · simp [resetCurrentBatch]
  · simp [resetCurrentBatch]
  · intro e he
    simp [resetCurrentBatch] at he

theorem handleCancel_WF {I P V : Type} [DecidableEq I] [DecidableEq V] (reqId : RId I)
    (token : Nat) (reason : JsVal V) (s : MState I P V) (hWF : s.WF) :
    (handleCancel reqId token reason s).WF := by
  unfold handleCancel
  rcases hfind : s.pending.find? (fun e => e.id == reqId) with _ | entry
  · rw [hfind]
    exact hWF
  simp only [hfind]
  have hemem : entry ∈ s.pending := List.mem_of_find?_eq_some hfind
  have heid : entry.id = reqId := by
    have := List.find?_some hfind
    rwa [beq_iff_eq] at this
  by_cases hcont : entry.requests.contains token = true
  · rw [if_pos hcont]
    have hlen : ∀ r : ReqState V,
        (if (getReq s.store token).cancelled then s.store
         else s.store.set token r).length = s.store.length := by
      intro r
      split
      · rfl
      · exact List.length_set s.store token r
    split <;> rename_i hni
    · split
      · exact WF_of_reset _
      · exact WF_of_filter s hWF _ _ (hlen _)
    · split
      · exact WF_of_reset _
      · refine WF_of_pointwise_shrink s hWF _ _ ?_ ?_ (hlen _)
        · intro e
          split <;> rfl
        · intro e he
          split <;> rename_i hq
          · have heq : e = entry :=
              List.inj_on_of_nodup_map hWF.1 he hemem
                (by rw [beq_iff_eq] at hq; rw [hq, heid])
            dsimp only
            rw [heq]
            exact List.erase_sublist token entry.requests
          · exact List.Sublist.refl _
  · rw [if_neg hcont]
    exact hWF

end EasySync

namespace EasySync

theorem handleCancel_desc {I P V : Type} [DecidableEq I] [DecidableEq V]
    (s : MState I P V) (X : RId I) (pl : Option P) (ts : List Nat) (t : Nat)
    (reason : JsVal V)
    (hfind : s.pending.find? (fun e => e.id == X) = some ⟨X, pl, ts⟩)
    (ht : t ∈ ts) (hinit : getReq s.store t = ReqState.initial) :
    handleCancel X t reason s =
      (if (if (ts.erase t).isEmpty then s.pending.filter (fun e => !(e.id == X))
           else s.pending.map
             (fun e => if e.id == X then ⟨e.id, e.payload, ts.erase t⟩ else e)).isEmpty then
        { pending := [],
          store := s.store.set t ⟨true, some (.rejected
            (if reason == JsVal.undef then JsVal.cancelErr else reason))⟩,
          firstRequestTime := none, lastRequestTime := none, timer := none,
          symCounter := s.symCounter }
      else
        { s with
          store := s.store.set t ⟨true, some (.rejected
            (if reason == JsVal.undef then JsVal.cancelErr else reason))⟩,
          pending :=
            if (ts.erase t).isEmpty then s.pending.filter (fun e => !(e.id == X))
            else s.pending.map
              (fun e => if e.id == X then ⟨e.id, e.payload, ts.erase t⟩ else e) }) := by
  have hcont : (ts.contains t) = true := by simpa using ht
  unfold handleCancel
  simp only [hfind]
  rw [if_pos hcont, hinit]
  rfl

end EasySync

namespace EasySync

/-- Claim C7: calling `cancel` on one handle among several sharing an identity
rejects only that handle (with the supplied reason, or a default
`BatchCancellationError` when the reason is `undefined`) and removes only it
from the entry's handle list; every other handle's stored state is untouched,
and the siblings remain pending in the entry, still able to receive the batch
result of a later successful flush.  If the cancellation empties the handle
list, the identity's entry is removed from the pending map and that identity
never appears in a request list passed to the processing function. -/
theorem handle_cancel_only_target {I P V C : Type} [DecidableEq I] [DecidableEq V]
    (s : MState I P V) (X : RId I) (pl : Option P) (ts : List Nat) (t : Nat)
    (reason : JsVal V) (hWF : s.WF)
    (hfind : s.pending.find? (fun e => e.id == X) = some ⟨X, pl, ts⟩)
    (ht : t ∈ ts) (hinit : getReq s.store t = ReqState.initial) :
    getReq (handleCancel X t reason s).store t =
      ⟨true, some (.rejected (if reason == JsVal.undef then JsVal.cancelErr else reason))⟩ ∧
    (∀ u, u ≠ t → getReq (handleCancel X t reason s).store u = getReq s.store u) ∧
    (ts.erase t ≠ [] →
      (handleCancel X t reason s).pending.find? (fun e => e.id == X) =
        some ⟨X, pl, ts.erase t⟩) ∧
    (ts.erase t = [] →
      (handleCancel X t reason s).pending.find? (fun e => e.id == X) = none ∧
      ∀ (proc : List (RId I × Option P) → Except (JsVal V) C)
        (resolver : C → RId I → Option P → ResolverRes V),
        ∀ L ∈ (triggerBatch proc resolver (handleCancel X t reason s)).2.procCalls,
          ∀ u ∈ L, u.1 ≠ X) ∧
    (ts.erase t ≠ [] →
      ∀ (proc : List (RId I × Option P) → Except (JsVal V) C)
        (resolver : C → RId I → Option P → ResolverRes V) (cr : C) (v : JsVal V),
        proc ((handleCancel X t reason s).pending.map (fun e => (e.id, e.payload))) =
          .ok cr →
        resolver cr X pl = .ok v →
        ∀ u ∈ ts.erase t, getReq s.store u = ReqState.initial →
          getReq (triggerBatch proc resolver (handleCancel X t reason s)).1.store u =
            ⟨false, some (.fulfilled v)⟩) := by
  have hdesc := handleCancel_desc s X pl ts t reason hfind ht hinit
  have hemem : (⟨X, pl, ts⟩ : Entry I P) ∈ s.pending := List.mem_of_find?_eq_some hfind
  have htlen : t < s.store.length := hWF.2.2 _ hemem t ht
  have hstore : (handleCancel X t reason s).store =
      s.store.set t ⟨true, some (.rejected
        (if reason == JsVal.undef then JsVal.cancelErr else reason))⟩ := by
    rw [hdesc]
    split <;> split <;> rfl
  have hb : ∀ u, u ≠ t →
      getReq (handleCancel X t reason s).store u = getReq s.store u := by
    intro u hu
    rw [hstore]
    exact getReq_set_ne _ _ hu
  have hc : ts.erase t ≠ [] →
      (handleCancel X t reason s).pending.find? (fun e => e.id == X) =
        some ⟨X, pl, ts.erase t⟩ := by
    intro herase
    rw [hdesc]
    have hie : ¬((ts.erase t).isEmpty = true) := by
      rw [List.isEmpty_eq_false.mpr herase]
      exact Bool.false_ne_true
    rw [if_neg hie]
    have hmne : ¬((s.pending.map (fun e =>
        if e.id == X then (⟨e.id, e.payload, ts.erase t⟩ : Entry I P) else e)).isEmpty
        = true) := by
      rw [List.isEmpty_eq_false.mpr (fun hmap =>
        (List.ne_nil_of_mem hemem) (List.map_eq_nil.mp hmap))]
      exact Bool.false_ne_true
    rw [if_neg hmne]
    dsimp only
    rw [List.find?_map]
    have hqg : ((fun e : Entry I P => e.id == X) ∘
        (fun e => if e.id == X then (⟨e.id, e.payload, ts.erase t⟩ : Entry I P) else e)) =
        (fun e : Entry I P => e.id == X) := by
      funext e
      dsimp only [Function.comp]
      split <;> rfl
    rw [hqg, hfind]
    simp
  refine ⟨?_, hb, hc, ?_, ?_⟩
  · rw [hstore]
    exact getReq_set_self _ _ htlen
  · intro herase
    have hie : (ts.erase t).isEmpty = true := by
      rw [herase]
      rfl
    by_cases hfemp : (s.pending.filter (fun e => !(e.id == X))).isEmpty = true
    · have hs' : handleCancel X t reason s =
          ⟨[], s.store.set t ⟨true, some (.rejected
            (if reason == JsVal.undef then JsVal.cancelErr else reason))⟩,
           none, none, none, s.symCounter⟩ := by
        rw [hdesc, if_pos hie, if_pos hfemp]
      constructor
      · rw [hs']
        rfl
      · intro proc resolver L hL
        rw [triggerBatch_procCalls, hs'] at hL
        simp at hL
    · have hs' : handleCancel X t reason s =
          { s with
            store := s.store.set t ⟨true, some (.rejected
              (if reason == JsVal.undef then JsVal.cancelErr else reason))⟩,
            pending := s.pending.filter (fun e => !(e.id == X)) } := by
        rw [hdesc, if_pos hie, if_neg hfemp]
      constructor
      · rw [hs']
        dsimp only
        refine List.find?_eq_none.mpr ?_
        intro e hef hcontra
        have h2 := (List.mem_filter.mp hef).2
        rw [hcontra] at h2
        simp at h2
      · intro proc resolver L hL u huL
        rw [triggerBatch_procCalls, hs'] at hL
        dsimp only at hL
        rw [if_neg hfemp] at hL
        rcases List.mem_singleton.mp hL with rfl
        rcases List.mem_map.mp huL with ⟨e, hef, rfl⟩
        have h2 := (List.mem_filter.mp hef).2
        intro hEq
        dsimp only at hEq
        rw [hEq] at h2
        simp at h2
  · intro herase proc resolver cr v hp hres u hu huinit
    have hWF' := handleCancel_WF X t reason s hWF
    have hfind' := hc herase
    have hentry' : (⟨X, pl, ts.erase t⟩ : Entry I P) ∈ (handleCancel X t reason s).pending :=
      List.mem_of_find?_eq_some hfind'
    have hnodup_ts : ts.Nodup :=
      (List.nodup_flatten.mp hWF.2.1).1 ts
        (List.mem_map_of_mem (fun e => e.requests) hemem)
    have hune : u ≠ t := ((List.Nodup.mem_erase_iff hnodup_ts).mp hu).1
    have hust : getReq (handleCancel X t reason s).store u = ReqState.initial := by
      rw [hb u hune, huinit]
    have hchar := triggerBatch_store_success proc resolver _ cr hWF'.2.1 hWF'.2.2 hp
      hentry' hu
    rw [hchar]
    have hcond : ¬((ts.erase t).all (fun w =>
        (getReq (handleCancel X t reason s).store w).cancelled) = true) := by
      intro hall
      have h0 := List.all_eq_true.mp hall u hu
      rw [hust] at h0
      exact Bool.false_ne_true h0
    rw [if_neg hcond, hust]
    rw [if_neg (by exact Bool.false_ne_true)]
    dsimp only
    rw [hres, settleOutcome_ok]
    rfl

end EasySync

namespace EasySync

/-- Witness for C7: cancelling token 1 of entry `2` (handles `[1, 2]`) in the
sample state rejects it with the default cancellation error and leaves sibling
token 2 untouched. -/
theorem handle_cancel_only_target_witness :
    sampleState.WF ∧
    sampleState.pending.find? (fun e => e.id == RId.ext 2) =
      some ⟨.ext 2, some 9, [1, 2]⟩ ∧
    getReq (handleCancel (.ext 2) 1 JsVal.undef sampleState).store 1 =
      ⟨true, some (.rejected (if (JsVal.undef : JsVal Nat) == JsVal.undef
        then JsVal.cancelErr else JsVal.undef))⟩ ∧
    getReq (handleCancel (.ext 2) 1 JsVal.undef sampleState).store 2 =
      getReq sampleState.store 2 :=
  have h := handle_cancel_only_target (C := Nat) sampleState (.ext 2) (some 9) [1, 2] 1
    JsVal.undef (by decide) (by decide) (by decide) (by decide)
  ⟨by decide, by decide, h.1, h.2.1 2 (by decide)⟩

end EasySync
